import Mathlib

/-!
Verification development for the PAPERGEN repository.

This file gives a shallow embedding of the generation-pipeline frontend
(`static/js/paper-generation.js`, `static/js/literature-survey.js`) and of the
algorithms documented with code in `PROJECT_DOCUMENTATION.md`
(`search_papers`, `get_cache_key`, `_format_structured_content`), together
with theorems settling the frozen claims about them.

Modelling conventions:
- JavaScript / Python strings are Lean `String` (or `List Char` where the
  algorithms walk characters); `.length` counts characters.
- The progress-bar percentage (`progressBar.style.width = '55%'` in source) is
  modelled by the numeric percentage.
- DOM side effects (notifications, `console.error`, `displayGeneratedPaper`)
  are recorded in an explicit `UIState`.
-/

set_option autoImplicit false

namespace Papergen

/-- Generic first-match association-list lookup (models both JS object
property access for the section mapping and keyed tables). -/
def alookup {α : Type} {β : Type} [DecidableEq α] : List (α × β) → α → Option β
  | [], _ => none
  | (k, v) :: rest, key => if k = key then some v else alookup rest key

/-! ## Generated-paper payload and stream events (`paper-generation.js`) -/

/-- The parts of the `data.paper` payload of a `complete` event that the
frontend consumer reads: title and the `sections` object (an ordered list of
`name ↦ text` properties). -/
structure GenPaper where
  title : String
  sections : List (String × String)
  deriving DecidableEq, Repr

/-- One parsed server-sent event object, as consumed by `generatePaper`'s read
loop. Fields absent on the wire are modelled by the neutral values supplied at
construction sites. `sectionName` models the `section` field of the JS object
(`section` is a Lean keyword). -/
structure SEvent where
  status : String
  message : String
  count : Nat
  sectionName : String
  paper : Option GenPaper
  deriving DecidableEq, Repr

/-- Event constructor helper. -/
def mkEvent (status message : String) (count : Nat) (sectionName : String)
    (paper : Option GenPaper) : SEvent :=
  ⟨status, message, count, sectionName, paper⟩

/-- A status-only event (other fields neutral), for events such as `start`,
`references` or unknown statuses whose extra fields the consumer ignores. -/
def statusEvent (status message : String) : SEvent :=
  mkEvent status message 0 "" none

/-- Observable frontend state touched by the read loop of `generatePaper`:
the progress bar percentage, the progress message, the global `currentPaper`,
the papers handed to `displayGeneratedPaper`, the notifications shown via
`showNotification` (message, level) and the `console.error` log. -/
structure UIState where
  progressWidth : Nat
  progressMessage : String
  currentPaper : Option GenPaper
  displayedPapers : List GenPaper
  notifications : List (String × String)
  consoleErrors : List String
  deriving DecidableEq, Repr

/-- The `sectionMap` object literal of the `section_start` branch
(paper-generation.js, lines 163-170). -/
def sectionMap : String → Option Nat := fun s =>
  alookup [("introduction", 55), ("literature_review", 62), ("methodology", 69),
           ("results", 76), ("discussion", 83), ("conclusion", 90)] s

/-- UI state as set up by `generatePaper` just before the fetch
(paper-generation.js, lines 116-120): width 5%, message "Starting...". -/
def initialUIState : UIState :=
  ⟨5, "Starting...", none, [], [], []⟩

/-- The event-dispatch `if/else` chain of `generatePaper`'s read loop
(paper-generation.js, lines 146-189), one parsed event at a time.

The whole chain sits inside `try { ... } catch (e) { console.error('Error
parsing stream:', e); }`; consequently the `throw new Error(data.message)` of
the `error` branch, and the `TypeError` raised by `displayGeneratedPaper`
when a `complete` event carries no paper, are caught by that inner handler,
which only appends to the console log — the loop then continues with the next
event. -/
def handleStreamEvent (s : UIState) (e : SEvent) : UIState :=
  if e.status = "start" then
    { s with progressWidth := 10, progressMessage := e.message }
  else if e.status = "title" then
    { s with progressWidth := 20, progressMessage := e.message }
  else if e.status = "rag_start" then
    { s with progressWidth := 30, progressMessage := e.message }
  else if e.status = "rag_complete" then
    { s with progressWidth := 40,
             progressMessage := "Retrieved " ++ toString e.count ++ " papers" }
  else if e.status = "abstract" then
    { s with progressWidth := 50, progressMessage := e.message }
  else if e.status = "section_start" then
    match sectionMap e.sectionName with
    | some w => { s with progressWidth := w, progressMessage := e.message }
    | none => { s with progressMessage := e.message }
  else if e.status = "references" then
    { s with progressWidth := 95, progressMessage := e.message }
  else if e.status = "complete" then
    match e.paper with
    | some p =>
      { s with progressWidth := 100, progressMessage := "Done!",
               currentPaper := some p,
               displayedPapers := s.displayedPapers ++ [p],
               notifications :=
                 s.notifications ++ [("✅ Research paper generated successfully!", "success")] }
    | none =>
      -- `currentPaper = data.paper` runs first; `displayGeneratedPaper(undefined)`
      -- then throws, and the inner catch logs it.
      { s with progressWidth := 100, progressMessage := "Done!",
               currentPaper := none,
               consoleErrors := s.consoleErrors ++ ["Error parsing stream: TypeError"] }
  else if e.status = "error" then
    -- `throw new Error(data.message)` — caught by the inner catch, which logs.
    { s with consoleErrors := s.consoleErrors ++ ["Error parsing stream: " ++ e.message] }
  else
    s

/-- Processing a whole (already-framed) event stream, in order. -/
def runEvents (s : UIState) (events : List SEvent) : UIState :=
  events.foldl handleStreamEvent s

/-- The progress-bar percentage before any event and after each successive
event of a stream. -/
def widthTrace (s : UIState) : List SEvent → List Nat
  | [] => [s.progressWidth]
  | e :: rest => s.progressWidth :: widthTrace (handleStreamEvent s e) rest

/-- The fixed status set of the progress-event protocol. -/
def knownStatuses : List String :=
  ["start", "title", "rag_start", "rag_complete", "abstract",
   "section_start", "references", "complete", "error"]

/-! ## Section rendering (`displayGeneratedPaper`, lines 229-244) -/

/-- The fixed section-name array of `displayGeneratedPaper`. -/
def fixedSections : List String :=
  ["abstract", "introduction", "literature_review", "methodology",
   "results", "discussion", "conclusion"]

/-- JS truthiness of `data.sections[section]`: the property exists and is a
non-empty string. -/
def sectionTruthy (sections : List (String × String)) (name : String) : Bool :=
  match alookup sections name with
  | some v => if v = "" then false else true
  | none => false

/-- The section names for which `displayGeneratedPaper` emits a
`<div class="paper-section">` block, in emission order: it iterates the fixed
array and keeps exactly the names whose value in `data.sections` is truthy. -/
def renderedSections (sections : List (String × String)) : List String :=
  fixedSections.filter (fun n => sectionTruthy sections n)

/-- JavaScript `String.prototype.trim` / Python `str.strip`: drop leading
and trailing whitespace. (Defined on character lists so that concrete
evaluation reduces in the kernel.) -/
def trimChars (l : List Char) : List Char :=
  ((l.dropWhile Char.isWhitespace).reverse.dropWhile Char.isWhitespace).reverse

/-- `s.trim()` on strings. -/
def jsTrim (s : String) : String :=
  String.mk (trimChars s.toList)

/-! ## Topic validation (`generatePaper` lines 56-107, `generateSurvey` lines 13-25) -/

/-- Outcome of the synchronous part of a pipeline entry point: either a
rejection via `showNotification` + `return` before any `fetch`, or a network
request carrying the validated payload. -/
inductive EntryOutcome where
  | topicRejected (message level : String)
  | authorsRejected (message level : String)
  | request (topic : String) (authors : List (String × String × String)) (useRag : Bool)
  deriving DecidableEq, Repr

/-- `true` exactly on the rejected-topic outcomes. -/
def EntryOutcome.isTopicRejected : EntryOutcome → Bool
  | .topicRejected _ _ => true
  | _ => false

/-- `true` exactly when a network request is issued (an event stream opened /
a phase started). -/
def EntryOutcome.issuesFetch : EntryOutcome → Bool
  | .request _ _ _ => true
  | _ => false

/-- The author-collection loop of `generatePaper` (lines 62-74): keep entries
whose trimmed name, email and affiliation are all non-empty. -/
def collectAuthors (entries : List (String × String × String)) :
    List (String × String × String) :=
  (entries.map (fun a => (jsTrim a.1, jsTrim a.2.1, jsTrim a.2.2))).filter
    (fun a => ¬(a.1 = "" ∨ a.2.1 = "" ∨ a.2.2 = ""))

/-- The synchronous validation prefix of `generatePaper`
(paper-generation.js lines 56-127): trim the topic, collect authors, reject an
empty topic, a topic shorter than 10 characters, or an empty author list; only
then issue the `fetch('/api/generate-paper-stream', ...)`. -/
def generatePaper_validate (rawTitle : String)
    (authorEntries : List (String × String × String)) (useRag : Bool) : EntryOutcome :=
  let paperTitle := jsTrim rawTitle
  let authors := collectAuthors authorEntries
  if paperTitle = "" then
    .topicRejected "Please enter a paper topic" "error"
  else if paperTitle.length < 10 then
    .topicRejected "Topic too short. Minimum 10 characters." "warning"
  else if authors.length = 0 then
    .authorsRejected "Please add at least one author with complete details" "error"
  else
    .request paperTitle authors useRag

/-- The synchronous validation prefix of `generateSurvey`
(literature-survey.js lines 13-32): trim the topic, reject empty or
shorter-than-10; only then issue the `fetch('/api/retrieve-papers', ...)`. -/
def generateSurvey_validate (rawTopic : String) : EntryOutcome :=
  let topic := jsTrim rawTopic
  if topic = "" then
    .topicRejected "Please enter a research topic" "error"
  else if topic.length < 10 then
    .topicRejected "Topic too short. Please provide at least 10 characters." "warning"
  else
    .request topic [] true

/-! ## Retrieval fallback ladder (`search_papers`, PROJECT_DOCUMENTATION.md
lines 646-665; RAG Service, §5 of the documentation) -/

/-- A retrieved paper record, reduced to the fields the ladder's
deduplication reads: the external identifier (DOI), if any, and the title. -/
structure RPaper where
  externalId : Option String
  title : String
  deriving DecidableEq, Repr

/-- Modelled from the spec: title normalisation used when deduplicating
papers without an external ID — "implementers should normalize (lowercase,
strip punctuation) before comparing titles" (spec §9). The body of the
backend's dedup helper is not among the source files. -/
def normalizeTitle (t : String) : String :=
  String.mk ((t.toList.map Char.toLower).filter Char.isAlphanum)

/-- Deduplication identifier of a paper: external ID if present, else the
normalized title. -/
def paperKey (p : RPaper) : String :=
  match p.externalId with
  | some id => id
  | none => normalizeTitle p.title

/-- Keep the first paper for each `paperKey`, dropping later duplicates;
`seen` is the set of keys already kept. -/
def dedupePapers_go (seen : List String) : List RPaper → List RPaper
  | [] => []
  | p :: rest =>
    if paperKey p ∈ seen then dedupePapers_go seen rest
    else p :: dedupePapers_go (paperKey p :: seen) rest

/-- `deduplicate(papers)` of the documented algorithm. -/
def dedupePapers (papers : List RPaper) : List RPaper :=
  dedupePapers_go [] papers

/-- The documented `search_papers(query, limit)` fallback ladder
(PROJECT_DOCUMENTATION.md lines 646-665), with the external search provider
`api` and the three derived query strings (`remove_stopwords`,
`first_n_keywords`, `last_n_words` live in the backend, outside the source
files) as parameters:

    papers = search_api(query)
    if len(papers) < limit: papers += search_api(simplified)
    if len(papers) < limit: papers += search_api(minimal)
    if len(papers) < limit: papers += search_api(broad)
    return deduplicate(papers)[:limit]

Each guard compares the raw accumulated list (duplicates included) with
`limit`; deduplication runs once, after the ladder. -/
def search_papers (api : String → List RPaper) (simplified minimal broad : String)
    (query : String) (limit : Nat) : List RPaper :=
  let papers := api query
  let papers := if papers.length < limit then papers ++ api simplified else papers
  let papers := if papers.length < limit then papers ++ api minimal else papers
  let papers := if papers.length < limit then papers ++ api broad else papers
  (dedupePapers papers).take limit

/-- The ladder as the claim words it: each step's results are appended to the
accumulator and deduplicated **before the next step runs**, so each guard
compares the deduplicated count with `limit`; the final list is truncated to
`limit`. Stated for comparison with `search_papers`. -/
def search_papers_claimed (api : String → List RPaper) (simplified minimal broad : String)
    (query : String) (limit : Nat) : List RPaper :=
  let acc := dedupePapers (api query)
  let acc := if acc.length < limit then dedupePapers (acc ++ api simplified) else acc
  let acc := if acc.length < limit then dedupePapers (acc ++ api minimal) else acc
  let acc := if acc.length < limit then dedupePapers (acc ++ api broad) else acc
  acc.take limit

/-- The ladder as amended: broader steps run only while the raw
(pre-deduplication) accumulated count is below `limit`; deduplication by
`paperKey` is applied once to the full accumulator after the ladder; the
result is truncated to `limit`. -/
def search_papers_amended (api : String → List RPaper) (simplified minimal broad : String)
    (query : String) (limit : Nat) : List RPaper :=
  let step1 := api query
  let step2 := if step1.length < limit then step1 ++ api simplified else step1
  let step3 := if step2.length < limit then step2 ++ api minimal else step2
  let step4 := if step3.length < limit then step3 ++ api broad else step3
  (dedupePapers step4).take limit

/-! ## Cache-key derivation (`get_cache_key`, PROJECT_DOCUMENTATION.md
lines 461-468) -/

/-- Python's `\w` on the ASCII range: letters, digits, underscore. -/
def isWordChar (c : Char) : Bool :=
  c.isAlphanum || c = '_'

/-- `re.sub(r'\s+', '_', ·)`: replace every maximal whitespace run by a
single underscore. `prevWs` records whether the previous character was
whitespace (i.e. the run is already replaced). -/
def collapseWsToUnderscore (prevWs : Bool) : List Char → List Char
  | [] => []
  | c :: rest =>
    if c.isWhitespace then
      if prevWs then collapseWsToUnderscore true rest
      else '_' :: collapseWsToUnderscore true rest
    else c :: collapseWsToUnderscore false rest

/-- The normalized slug built by `get_cache_key`:
`re.sub(r'[^\w\s-]', '', query.lower())` (keep word characters, whitespace
and hyphens), then `re.sub(r'\s+', '_', clean.strip())[:60]`. -/
def cacheSlug (query : String) : List Char :=
  let lowered := query.toList.map Char.toLower
  let clean := lowered.filter (fun c => isWordChar c || c.isWhitespace || c = '-')
  (collapseWsToUnderscore false (trimChars clean)).take 60

/-- `get_cache_key(self, query)` of `utils/cache_manager.py` as documented
(PROJECT_DOCUMENTATION.md lines 461-468). `md5hex` is the external
`hashlib.md5(·).hexdigest()` primitive, applied to the original query. -/
def get_cache_key (md5hex : String → String) (query : String) : String :=
  String.mk (cacheSlug query) ++ "_" ++ ((md5hex query).take 8)

/-- The slug as the claim words it: lowercase, strip non-word characters
(whitespace is kept for the next step), collapse whitespace runs to single
underscores, truncate to the 60-character prefix. Stated for comparison with
`cacheSlug`. -/
def cacheSlug_claimed (query : String) : List Char :=
  let lowered := query.toList.map Char.toLower
  let clean := lowered.filter (fun c => isWordChar c || c.isWhitespace)
  (collapseWsToUnderscore false clean).take 60

/-- The cache key as the claim words it. -/
def get_cache_key_claimed (md5hex : String → String) (query : String) : String :=
  String.mk (cacheSlug_claimed query) ++ "_" ++ ((md5hex query).take 8)

/-! ## Content formatter (`_format_structured_content`,
PROJECT_DOCUMENTATION.md lines 697-727)

Each `re.sub` of the post-processor is embedded as a left-to-right character
scanner. The regexes involved are backtracking-free in effect (each `\s+`,
`\s*`, `\d+` run is followed by a character that cannot belong to the run),
so each scanner deterministically matches the maximal run, exactly as the
Python engine does. Scanners take a fuel argument for structural recursion;
every step consumes at least one input character, so fuel = input length is
always sufficient (all call sites pass the current length). -/

/-- Python `str.replace(pat, rep)` / `re.sub` of a literal pattern:
leftmost, non-overlapping, replacement text not rescanned. -/
def replaceSub (pat rep : List Char) : Nat → List Char → List Char
  | _, [] => []
  | 0, l => l
  | fuel + 1, c :: rest =>
    if pat ≠ [] ∧ pat.isPrefixOf (c :: rest) then
      rep ++ replaceSub pat rep fuel ((c :: rest).drop pat.length)
    else c :: replaceSub pat rep fuel rest

/-- One anchored attempt of `(\w)\s+(L\.\s+\w)` at character `c` followed by
`rest`. On success, returns the replacement `\1\n\n\2` (the inner whitespace
run is part of `\2` and is kept) and the input remaining after the match. -/
def letterMatch (L : Char) (c : Char) (rest : List Char) :
    Option (List Char × List Char) :=
  if isWordChar c then
    let ws1 := rest.takeWhile Char.isWhitespace
    let r1 := rest.dropWhile Char.isWhitespace
    if ws1 = [] then none else
    match r1 with
    | l :: d :: r2 =>
      if l = L ∧ d = '.' then
        let ws2 := r2.takeWhile Char.isWhitespace
        let r3 := r2.dropWhile Char.isWhitespace
        if ws2 = [] then none else
        match r3 with
        | w :: r4 =>
          if isWordChar w then
            some (c :: '\n' :: '\n' :: l :: '.' :: (ws2 ++ [w]), r4)
          else none
        | [] => none
      else none
    | _ => none
  else none

/-- `re.sub(rf'(\w)\s+({L}\.\s+\w)', r'\1\n\n\2', text)` — line breaks
before lettered subsection markers. -/
def letterRule (L : Char) : Nat → List Char → List Char
  | _, [] => []
  | 0, l => l
  | fuel + 1, c :: rest =>
    match letterMatch L c rest with
    | some (em, rem) => em ++ letterRule L fuel rem
    | none => c :: letterRule L fuel rest

/-- One anchored attempt of `(\S)\s*•\s*` at `c` / `rest`; the replacement
is `\1\n\n• ` and scanning resumes after the consumed trailing whitespace. -/
def bulletMatch (c : Char) (rest : List Char) : Option (List Char × List Char) :=
  if c.isWhitespace then none
  else
    let r1 := rest.dropWhile Char.isWhitespace
    match r1 with
    | b :: r2 =>
      if b = '•' then
        some (c :: '\n' :: '\n' :: '•' :: [' '], r2.dropWhile Char.isWhitespace)
      else none
    | [] => none

/-- `re.sub(r'(\S)\s*•\s*', r'\1\n\n• ', text)` — line breaks before
bullets. -/
def bulletRule : Nat → List Char → List Char
  | _, [] => []
  | 0, l => l
  | fuel + 1, c :: rest =>
    match bulletMatch c rest with
    | some (em, rem) => em ++ bulletRule fuel rem
    | none => c :: bulletRule fuel rest

/-- One anchored attempt of `(\w)\s+(\d+)\.\s+` at `c` / `rest`; the
replacement is `\1\n\n\2. ` (the trailing whitespace run is consumed and
replaced by one space). -/
def numberedMatch (c : Char) (rest : List Char) : Option (List Char × List Char) :=
  if isWordChar c then
    let ws1 := rest.takeWhile Char.isWhitespace
    let r1 := rest.dropWhile Char.isWhitespace
    if ws1 = [] then none else
    let digs := r1.takeWhile Char.isDigit
    let r2 := r1.dropWhile Char.isDigit
    if digs = [] then none else
    match r2 with
    | d :: r3 =>
      if d = '.' then
        let ws2 := r3.takeWhile Char.isWhitespace
        let r4 := r3.dropWhile Char.isWhitespace
        if ws2 = [] then none else
        some (c :: '\n' :: '\n' :: (digs ++ ['.', ' ']), r4)
      else none
    | [] => none
  else none

/-- `re.sub(r'(\w)\s+(\d+)\.\s+', r'\1\n\n\2. ', text)` — line breaks before
numbered-list markers. -/
def numberedRule : Nat → List Char → List Char
  | _, [] => []
  | 0, l => l
  | fuel + 1, c :: rest =>
    match numberedMatch c rest with
    | some (em, rem) => em ++ numberedRule fuel rem
    | none => c :: numberedRule fuel rest

/-- One anchored attempt of `(\w)\s+(label)` at `c` / `rest`; replacement
`\1\n\n\2`. -/
def labelMatch (label : List Char) (c : Char) (rest : List Char) :
    Option (List Char × List Char) :=
  if isWordChar c then
    let ws1 := rest.takeWhile Char.isWhitespace
    let r1 := rest.dropWhile Char.isWhitespace
    if ws1 = [] then none else
    if label ≠ [] ∧ label.isPrefixOf r1 then
      some (c :: '\n' :: '\n' :: label, r1.drop label.length)
    else none
  else none

/-- `re.sub(rf'(\w)\s+({label})', r'\1\n\n\2', text)` — line breaks before a
fixed label header. -/
def labelRule (label : List Char) : Nat → List Char → List Char
  | _, [] => []
  | 0, l => l
  | fuel + 1, c :: rest =>
    match labelMatch label c rest with
    | some (em, rem) => em ++ labelRule label fuel rem
    | none => c :: labelRule label fuel rest

/-- `re.sub(r'c{min,}', rep, text)` for a single-character pattern: every
maximal run of `ch` of length ≥ `minCount` is replaced by `rep`; shorter runs
pass through. -/
def runCollapse (ch : Char) (minCount : Nat) (rep : List Char) :
    Nat → List Char → List Char
  | _, [] => []
  | 0, l => l
  | fuel + 1, c :: rest =>
    if c = ch then
      let run := (c :: rest).takeWhile (fun x => x == ch)
      let rem := (c :: rest).dropWhile (fun x => x == ch)
      if minCount ≤ run.length then rep ++ runCollapse ch minCount rep fuel rem
      else run ++ runCollapse ch minCount rep fuel rem
    else c :: runCollapse ch minCount rep fuel rest

/-- The character-encoding repair table. The documentation lists
`'â€¢': '•', 'Â²': '²'` (line 699) and `Ã© → é` (line 227) and truncates the
rest with an ellipsis; the entries shown are embedded. -/
def encodingFixes : List (List Char × List Char) :=
  [("â€¢".toList, "•".toList), ("Â²".toList, "²".toList), ("Ã©".toList, "é".toList)]

/-- The label-header vocabulary. The documentation lists
`['Key Insight:', 'Objectives:', 'Methodology:', ...]` (line 717) and the
spec names "Objectives:" and "Limitations:" (§4.4); the entries shown are
embedded. -/
def formatLabels : List String :=
  ["Key Insight:", "Objectives:", "Methodology:", "Limitations:"]

/-- `_format_structured_content(text)` (PROJECT_DOCUMENTATION.md lines
697-727): encoding repair, code-fence removal, break insertion before
lettered subsections (A.–E.), bullets, numbered lists and label headers,
then artifact removal (dash runs ≥ 3, bold-marker runs ≥ 2, newline runs ≥ 3
collapsed to one blank line) and a final strip. -/
def format_structured_content (text : String) : String :=
  let t := text.toList
  let t := encodingFixes.foldl (fun acc p => replaceSub p.1 p.2 acc.length acc) t
  let t := replaceSub "```".toList [] t.length t
  let t := ['A', 'B', 'C', 'D', 'E'].foldl (fun acc L => letterRule L acc.length acc) t
  let t := bulletRule t.length t
  let t := numberedRule t.length t
  let t := formatLabels.foldl (fun acc lb => labelRule lb.toList acc.length acc) t
  let t := runCollapse '-' 3 [] t.length t
  let t := runCollapse '*' 2 [] t.length t
  let t := runCollapse '\n' 3 ['\n', '\n'] t.length t
  String.mk (trimChars t)

/-! ## Stream framing (`generatePaper` read loop, paper-generation.js
lines 129-145)

    let buffer = '';
    while (true) { ... buffer += decoder.decode(value, {stream: true});
      const lines = buffer.split('\n\n');
      buffer = lines.pop(); // Keep incomplete chunk
      for (const line of lines) { if (line.startsWith('data: ')) ... } }

Chunks are modelled as character lists (the `TextDecoder` in streaming mode
already makes byte-level chunking transparent at the character level). -/

/-- JavaScript `s.split('\n\n')`: leftmost, non-overlapping occurrences of
the two-newline separator; always returns at least one part. -/
def splitNN : List Char → List (List Char)
  | [] => [[]]
  | [a] => [[a]]
  | a :: b :: rest =>
    if a = '\n' ∧ b = '\n' then [] :: splitNN rest
    else
      match splitNN (b :: rest) with
      | [] => [[a]]
      | h :: t => (a :: h) :: t

/-- The last element of a non-empty list of parts (what `lines.pop()`
returns); `[]` for an empty list (unreachable for `splitNN` results). -/
def lastOf : List (List Char) → List Char
  | [] => []
  | [x] => x
  | _ :: x :: t => lastOf (x :: t)

/-- The complete frames of a stream prefix: every part of the `'\n\n'` split
except the trailing (possibly incomplete) one. -/
def frames (s : List Char) : List (List Char) :=
  (splitNN s).dropLast

/-- The trailing incomplete frame of a stream prefix (the final buffer). -/
def restBuf (s : List Char) : List Char :=
  lastOf (splitNN s)

/-- `line.startsWith('data: ')`. -/
def isDataFrame (f : List Char) : Bool :=
  "data: ".toList.isPrefixOf f

/-- The read loop: per chunk, append to the buffer, split on `'\n\n'`, keep
the last part as the new buffer, and handle the complete frames that start
with `'data: '`. Returns the handled frames (in order) and the final buffer,
which is discarded when the stream ends. -/
def readLoop (buf : List Char) : List (List Char) → List (List Char) × List Char
  | [] => ([], buf)
  | c :: cs =>
    let parts := splitNN (buf ++ c)
    let out := parts.dropLast.filter isDataFrame
    let res := readLoop (lastOf parts) cs
    (out ++ res.1, res.2)

/-- Concatenation of all chunks: the full response stream. -/
def joinChunks : List (List Char) → List Char
  | [] => []
  | c :: cs => c ++ joinChunks cs

/-- The frames the claim says get handled: the complete `'\n\n'`-delimited
frames of the whole stream that begin with `'data: '`, in stream order. -/
def handledSpec (s : List Char) : List (List Char) :=
  (frames s).filter isDataFrame

/-! ## Single-flight retrieval (spec §4.2, §5)

Modelled from the spec: the RetrievalService's per-key in-flight-request
table is not among the source files (only the spec describes it), so the
model below follows the spec's words: a cache of completed results, an
in-flight table `key ↦ registered callers`, a log of issued upstream
requests, and a log of results delivered to callers. A `begin` that hits the
cache is served at once; a `begin` that misses joins the in-flight entry if
one exists, else issues the one upstream request; a `finish` delivers the
same result (or the same failure) to the issuer and every waiter. -/

/-- Result of one upstream retrieval: the papers, or a failure. -/
inductive SFRes where
  | ok (papers : List RPaper)
  | err (msg : String)
  deriving DecidableEq, Repr

/-- State of the single-flight retrieval layer. -/
structure SFState where
  cache : List (String × SFRes)
  inflight : List (String × List Nat)
  upstream : List String
  delivered : List (Nat × SFRes)
  deriving DecidableEq, Repr

/-- Register one more waiter on an in-flight key. -/
def addWaiter (l : List (String × List Nat)) (k : String) (c : Nat) :
    List (String × List Nat) :=
  l.map (fun kv => if kv.1 = k then (kv.1, kv.2 ++ [c]) else kv)

/-- Drop an in-flight entry once its request finishes. -/
def removeKey (l : List (String × List Nat)) (k : String) :
    List (String × List Nat) :=
  l.filter (fun kv => kv.1 != k)

/-- Observable steps of the single-flight protocol: a caller begins a search
that resolved to cache key `k`, or the upstream request for `k` finishes. -/
inductive SFEvent where
  | callBegin (caller : Nat) (key : String)
  | callFinish (key : String) (r : SFRes)

/-- One protocol step. -/
def sfStep (s : SFState) (e : SFEvent) : SFState :=
  match e with
  | .callBegin c k =>
    match alookup s.cache k with
    | some r => { s with delivered := s.delivered ++ [(c, r)] }
    | none =>
      match alookup s.inflight k with
      | some _ => { s with inflight := addWaiter s.inflight k c }
      | none =>
        { s with inflight := (k, [c]) :: s.inflight,
                 upstream := s.upstream ++ [k] }
  | .callFinish k r =>
    let ws := (alookup s.inflight k).getD []
    { s with delivered := s.delivered ++ ws.map (fun c => (c, r)),
             inflight := removeKey s.inflight k,
             cache := match r with
                      | .ok _ => (k, r) :: s.cache
                      | .err _ => s.cache }

/-- Prepend a character to the first part of a split result. -/
def consHead (a : Char) : List (List Char) → List (List Char)
  | [] => [[a]]
  | h :: t => (a :: h) :: t

/-! ## Concrete instances used by counterexamples and witnesses -/

/-- A stub retrieval provider: the exact query returns two records sharing one
DOI; the simplified query returns a fresh record; other queries return
nothing. -/
def ladderStubApi : String → List RPaper := fun q =>
  if q = "exact topic query" then
    [⟨some "doi-1", "Paper A"⟩, ⟨some "doi-1", "Paper A, duplicate record"⟩]
  else if q = "simplified query" then [⟨some "doi-2", "Paper B"⟩]
  else []

/-- A stub content-hash primitive with a fixed 32-hex-digit output. -/
def stubHex : String → String := fun _ => "0123456789abcdef0123456789abcdef"

/-- A concrete paper payload for `complete` events. -/
def samplePaper : GenPaper :=
  ⟨"Adversarial Robustness", [("abstract", "Abstract text.")]⟩

/-- An event stream whose `error` event is followed by a `complete` event. -/
def errorThenCompleteStream : List SEvent :=
  [statusEvent "error" "Generation failed at methodology",
   mkEvent "complete" "" 0 "" (some samplePaper)]

/-- The event stream of a successful run, with the fixed status order and
the six `section_start` events in the fixed section order. -/
def canonicalSuccessEvents : List SEvent :=
  [statusEvent "start" "Starting generation",
   statusEvent "title" "Generating title",
   statusEvent "rag_start" "Searching papers",
   mkEvent "rag_complete" "" 9 "" none,
   statusEvent "abstract" "Generating abstract",
   mkEvent "section_start" "Writing introduction" 0 "introduction" none,
   mkEvent "section_start" "Writing literature review" 0 "literature_review" none,
   mkEvent "section_start" "Writing methodology" 0 "methodology" none,
   mkEvent "section_start" "Writing results" 0 "results" none,
   mkEvent "section_start" "Writing discussion" 0 "discussion" none,
   mkEvent "section_start" "Writing conclusion" 0 "conclusion" none,
   statusEvent "references" "Compiling references",
   mkEvent "complete" "" 0 "" (some samplePaper)]

/-- An empty single-flight state. -/
def emptySFState : SFState := ⟨[], [], [], []⟩

/-! ## Helper lemmas: stream framing -/

theorem splitNN_ne_nil (l : List Char) : splitNN l ≠ [] := by
  induction l using splitNN.induct with
  | case1 => simp [splitNN]
  | case2 a => simp [splitNN]
  | case3 a b rest h ih => simp [splitNN, h]
  | case4 a b rest h hnil ih => exact absurd hnil ih
  | case5 a b rest h hh tt hs ih =>
    simp only [splitNN, if_neg h, hs]
    simp

theorem splitNN_cons_of_not_sep (a : Char) (u : List Char)
    (h : ¬(a = '\n' ∧ u.head? = some '\n')) :
    splitNN (a :: u) = consHead a (splitNN u) := by
  cases u with
  | nil => simp [splitNN, consHead]
  | cons b rest =>
    have hab : ¬(a = '\n' ∧ b = '\n') := by simpa using h
    simp only [splitNN, if_neg hab]
    cases hs : splitNN (b :: rest) with
    | nil => simp [consHead]
    | cons hh tt => simp [consHead]

theorem splitNN_singleton_cons (b : Char) (rest : List Char) (h : List Char)
    (hs : splitNN (b :: rest) = [h]) : ∃ h', h = b :: h' := by
  cases rest with
  | nil =>
    simp [splitNN] at hs
    exact ⟨[], hs.symm⟩
  | cons c r =>
    by_cases hbc : b = '\n' ∧ c = '\n'
    · simp only [splitNN, if_pos hbc] at hs
      simp at hs
      exact absurd hs.2 (splitNN_ne_nil r)
    · simp only [splitNN, if_neg hbc] at hs
      cases hsc : splitNN (c :: r) with
      | nil => exact absurd hsc (splitNN_ne_nil _)
      | cons hh tt =>
        rw [hsc] at hs
        simp at hs
        exact ⟨hh, by simp [hs.1]⟩


@[simp] theorem consHead_nil (a : Char) : consHead a [] = [[a]] := rfl

@[simp] theorem consHead_cons (a : Char) (h : List Char) (t : List (List Char)) :
    consHead a (h :: t) = (a :: h) :: t := rfl

@[simp] theorem lastOf_nil : lastOf [] = [] := rfl

@[simp] theorem lastOf_single (x : List Char) : lastOf [x] = x := rfl

@[simp] theorem lastOf_cons_cons (x y : List Char) (t : List (List Char)) :
    lastOf (x :: y :: t) = lastOf (y :: t) := rfl

theorem lastOf_cons_of_ne_nil (x : List Char) (L : List (List Char)) (h : L ≠ []) :
    lastOf (x :: L) = lastOf L := by
  cases L with
  | nil => exact absurd rfl h
  | cons y t => rfl

theorem dropLast_cons_of_ne_nil (x : List Char) (L : List (List Char)) (h : L ≠ []) :
    (x :: L).dropLast = x :: L.dropLast := by
  cases L with
  | nil => exact absurd rfl h
  | cons y t => rfl

theorem lastOf_append_of_ne_nil (A B : List (List Char)) (h : B ≠ []) :
    lastOf (A ++ B) = lastOf B := by
  induction A with
  | nil => rfl
  | cons x A' ih =>
    have hne : A' ++ B ≠ [] := by
      simp only [ne_eq, List.append_eq_nil]
      rintro ⟨-, hB⟩
      exact h hB
    rw [List.cons_append, lastOf_cons_of_ne_nil x (A' ++ B) hne, ih]

theorem dropLast_append_of_ne_nil' (A B : List (List Char)) (h : B ≠ []) :
    (A ++ B).dropLast = A ++ B.dropLast := by
  induction A with
  | nil => rfl
  | cons x A' ih =>
    have hne : A' ++ B ≠ [] := by
      simp only [ne_eq, List.append_eq_nil]
      rintro ⟨-, hB⟩
      exact h hB
    rw [List.cons_append, dropLast_cons_of_ne_nil x (A' ++ B) hne, ih, List.cons_append]

theorem splitNN_append (s t : List Char) :
    splitNN (s ++ t) = (splitNN s).dropLast ++ splitNN (lastOf (splitNN s) ++ t) := by
  induction s using splitNN.induct with
  | case1 => simp [splitNN]
  | case2 a => simp [splitNN]
  | case3 a b rest hab ih =>
    have h1 : splitNN rest ≠ [] := splitNN_ne_nil rest
    have hL : (a :: b :: rest) ++ t = a :: b :: (rest ++ t) := rfl
    rw [hL]
    simp only [splitNN, if_pos hab]
    rw [dropLast_cons_of_ne_nil _ _ h1, lastOf_cons_of_ne_nil _ _ h1, List.cons_append, ih]
  | case4 a b rest hab hnil ih => exact absurd hnil (splitNN_ne_nil _)
  | case5 a b rest hab hh tt hs ih =>
    have hL : (a :: b :: rest) ++ t = a :: ((b :: rest) ++ t) := rfl
    rw [hL, splitNN_cons_of_not_sep a _ (by simpa using hab), ih,
        splitNN_cons_of_not_sep a (b :: rest) (by simpa using hab), hs]
    cases tt with
    | nil =>
      obtain ⟨h', rfl⟩ := splitNN_singleton_cons b rest hh hs
      simp only [consHead_cons, List.dropLast_single, List.nil_append, lastOf_single]
      exact (splitNN_cons_of_not_sep a (b :: (h' ++ t)) (by simpa using hab)).symm
    | cons x tt' =>
      have hne : (x :: tt' : List (List Char)) ≠ [] := by simp
      rw [dropLast_cons_of_ne_nil hh _ hne, lastOf_cons_of_ne_nil hh _ hne]
      simp only [consHead_cons]
      rw [dropLast_cons_of_ne_nil (a :: hh) _ hne, lastOf_cons_of_ne_nil (a :: hh) _ hne]
      simp


theorem splitNN_restBuf (s : List Char) : splitNN (restBuf s) = [restBuf s] := by
  induction s using splitNN.induct with
  | case1 => simp [restBuf, splitNN]
  | case2 a => simp [restBuf, splitNN]
  | case3 a b rest hab ih =>
    have h1 : splitNN rest ≠ [] := splitNN_ne_nil rest
    show splitNN (lastOf (splitNN (a :: b :: rest))) = [lastOf (splitNN (a :: b :: rest))]
    simp only [splitNN, if_pos hab]
    rw [lastOf_cons_of_ne_nil _ _ h1]
    exact ih
  | case4 a b rest hab hnil ih => exact absurd hnil (splitNN_ne_nil _)
  | case5 a b rest hab hh tt hs ih =>
    show splitNN (lastOf (splitNN (a :: b :: rest))) = [lastOf (splitNN (a :: b :: rest))]
    rw [splitNN_cons_of_not_sep a (b :: rest) (by simpa using hab), hs]
    cases tt with
    | nil =>
      obtain ⟨h', rfl⟩ := splitNN_singleton_cons b rest hh hs
      simp only [consHead_cons, lastOf_single]
      have ih' : splitNN (b :: h') = [b :: h'] := by
        have h2 := ih
        rw [restBuf, hs] at h2
        simpa using h2
      rw [splitNN_cons_of_not_sep a (b :: h') (by simpa using hab), ih']
      rfl
    | cons x tt' =>
      have hne : (x :: tt' : List (List Char)) ≠ [] := by simp
      simp only [consHead_cons]
      rw [lastOf_cons_of_ne_nil (a :: hh) _ hne]
      have h2 := ih
      rw [restBuf, hs, lastOf_cons_of_ne_nil hh _ hne] at h2
      exact h2

theorem readLoop_eq (cs : List (List Char)) (buf : List Char)
    (hbuf : splitNN buf = [buf]) :
    readLoop buf cs =
      ((frames (buf ++ joinChunks cs)).filter isDataFrame,
       restBuf (buf ++ joinChunks cs)) := by
  induction cs generalizing buf with
  | nil =>
    simp [readLoop, joinChunks, frames, restBuf, hbuf]
  | cons c cs ih =>
    have hrb : splitNN (lastOf (splitNN (buf ++ c))) = [lastOf (splitNN (buf ++ c))] :=
      splitNN_restBuf (buf ++ c)
    have hne : splitNN (lastOf (splitNN (buf ++ c)) ++ joinChunks cs) ≠ [] :=
      splitNN_ne_nil _
    have hassoc : buf ++ joinChunks (c :: cs) = (buf ++ c) ++ joinChunks cs := by
      show buf ++ (c ++ joinChunks cs) = (buf ++ c) ++ joinChunks cs
      rw [List.append_assoc]
    have f1 : frames (buf ++ joinChunks (c :: cs)) =
        (splitNN (buf ++ c)).dropLast ++
          frames (lastOf (splitNN (buf ++ c)) ++ joinChunks cs) := by
      rw [hassoc]
      show (splitNN ((buf ++ c) ++ joinChunks cs)).dropLast = _
      rw [splitNN_append (buf ++ c) (joinChunks cs),
          dropLast_append_of_ne_nil' _ _ hne]
      rfl
    have f2 : restBuf (buf ++ joinChunks (c :: cs)) =
        restBuf (lastOf (splitNN (buf ++ c)) ++ joinChunks cs) := by
      rw [hassoc]
      show lastOf (splitNN ((buf ++ c) ++ joinChunks cs)) = _
      rw [splitNN_append (buf ++ c) (joinChunks cs),
          lastOf_append_of_ne_nil _ _ hne]
      rfl
    simp only [readLoop]
    rw [ih (lastOf (splitNN (buf ++ c))) hrb, f1, f2, List.filter_append]


/-! ## Helper lemmas: association lookup under permutation -/

theorem alookup_perm {α β : Type} [DecidableEq α] {l₁ l₂ : List (α × β)}
    (hp : l₁.Perm l₂) (hn : (l₁.map Prod.fst).Nodup) (k : α) :
    alookup l₁ k = alookup l₂ k := by
  induction hp with
  | nil => rfl
  | cons x p ih =>
    obtain ⟨a, b⟩ := x
    simp only [List.map_cons, List.nodup_cons] at hn
    simp only [alookup]
    by_cases h : a = k
    · simp [h]
    · simp only [if_neg h]
      exact ih hn.2
  | swap x y l =>
    obtain ⟨a, b⟩ := x
    obtain ⟨c, d⟩ := y
    simp only [List.map_cons, List.nodup_cons, List.mem_cons] at hn
    simp only [alookup]
    by_cases hc : c = k
    · by_cases ha : a = k
      · exact absurd (ha.trans hc.symm) (fun h => hn.1 (Or.inl h.symm))
      · simp [hc, ha]
    · by_cases ha : a = k
      · simp [hc, ha]
      · simp [hc, ha]
  | trans p1 p2 ih1 ih2 =>
    have hn2 := (p1.map Prod.fst).nodup hn
    exact (ih1 hn).trans (ih2 hn2)

/-! ## Helper lemmas: deduplication -/

theorem dedupePapers_go_spec (l : List RPaper) :
    ∀ seen : List String,
      ((dedupePapers_go seen l).map paperKey).Nodup ∧
        ∀ k ∈ (dedupePapers_go seen l).map paperKey, k ∉ seen := by
  induction l with
  | nil => intro seen; simp [dedupePapers_go]
  | cons p rest ih =>
    intro seen
    by_cases h : paperKey p ∈ seen
    · simpa [dedupePapers_go, h] using ih seen
    · obtain ⟨ihn, ihs⟩ := ih (paperKey p :: seen)
      simp only [dedupePapers_go, if_neg h, List.map_cons, List.nodup_cons]
      refine ⟨⟨fun hmem => ?_, ihn⟩, fun k hk => ?_⟩
      · exact (ihs _ hmem) (List.mem_cons_self _ _)
      · rcases List.mem_cons.mp hk with hk1 | hk2
        · exact hk1 ▸ h
        · exact fun hin => (ihs _ hk2) (List.mem_cons_of_mem _ hin)

theorem dedupePapers_nodup (l : List RPaper) :
    ((dedupePapers l).map paperKey).Nodup :=
  (dedupePapers_go_spec l []).1

/-! ## Helper lemmas: cache slug -/

theorem collapseWs_no_ws (l : List Char) :
    ∀ (b : Bool), ∀ c ∈ collapseWsToUnderscore b l, c.isWhitespace = false := by
  induction l with
  | nil => intro b c hc; simp [collapseWsToUnderscore] at hc
  | cons x rest ih =>
    intro b c hc
    simp only [collapseWsToUnderscore] at hc
    by_cases hx : x.isWhitespace
    · rw [if_pos hx] at hc
      cases b with
      | true => exact ih true c (by simpa using hc)
      | false =>
        simp only [if_neg (by simp : ¬(false = true)), List.mem_cons] at hc
        rcases hc with rfl | hc
        · decide
        · exact ih true c hc
    · rw [if_neg hx] at hc
      rcases List.mem_cons.mp hc with rfl | hc
      · simpa using hx
      · exact ih false c hc

theorem cacheSlug_length_le (q : String) : (cacheSlug q).length ≤ 60 := by
  simp only [cacheSlug]
  exact (List.length_take_le _ _)

theorem cacheSlug_no_whitespace (q : String) :
    ∀ c ∈ cacheSlug q, c.isWhitespace = false := by
  intro c hc
  simp only [cacheSlug] at hc
  exact collapseWs_no_ws _ false c (List.mem_of_mem_take hc)

/-! ## Claim theorems -/

/-- C1 (counterexample): the ladder as implemented is not the ladder as
claimed. With `limit = 2` and a provider whose exact query returns two
records sharing one DOI, the implementation counts the raw (undeduplicated)
accumulator, skips every broader step, and returns one paper; the claimed
per-step-deduplicating ladder would run the simplified step and return two. -/
theorem retrieval_ladder_counterexample :
    search_papers ladderStubApi "simplified query" "minimal query" "broad query"
        "exact topic query" 2 ≠
      search_papers_claimed ladderStubApi "simplified query" "minimal query" "broad query"
        "exact topic query" 2 ∧
    search_papers ladderStubApi "simplified query" "minimal query" "broad query"
        "exact topic query" 2 = [⟨some "doi-1", "Paper A"⟩] ∧
    search_papers_claimed ladderStubApi "simplified query" "minimal query" "broad query"
        "exact topic query" 2 = [⟨some "doi-1", "Paper A"⟩, ⟨some "doi-2", "Paper B"⟩] := by
  refine ⟨by decide, by decide, by decide⟩

/-- C1 (amended): a broader-query step runs only while the raw
(pre-deduplication) accumulated count is below `limit`; deduplication by
paper identifier (external ID if present, else normalized title) is applied
once to the full accumulator after the ladder; the final list is truncated to
at most `limit` papers and contains no two papers with the same identifier. -/
theorem retrieval_ladder_amended (api : String → List RPaper)
    (simplified minimal broad query : String) (limit : Nat) :
    search_papers api simplified minimal broad query limit =
      search_papers_amended api simplified minimal broad query limit ∧
    (search_papers api simplified minimal broad query limit).length ≤ limit ∧
    ((search_papers api simplified minimal broad query limit).map paperKey).Nodup := by
  refine ⟨rfl, ?_, ?_⟩
  · simp only [search_papers]
    exact List.length_take_le _ _
  · simp only [search_papers]
    rw [List.map_take]
    exact (dedupePapers_nodup _).sublist (List.take_sublist _ _)

/-- C2 (failing input for the idempotence contract): on
`"word **A. item"` the formatter first removes the bold markers, which
unmasks the `A.` subsection cue; only a second run inserts the paragraph
break, so `format(format(x)) ≠ format(x)`. -/
theorem formatter_idempotence_failing_input :
    format_structured_content "word **A. item" = "word A. item" ∧
    format_structured_content (format_structured_content "word **A. item") =
      "word\n\nA. item" ∧
    format_structured_content (format_structured_content "word **A. item") ≠
      format_structured_content "word **A. item" := by
  refine ⟨by decide, by decide, by decide⟩

/-- C3 (failing input for run-terminating errors): on a stream consisting of
an `error` event followed by a `complete` event, the consumer logs the error
to the console (the `throw` is swallowed by the inner `catch` meant for JSON
parse failures), keeps processing, displays the later paper and reports
success; no failure notification is ever shown. -/
theorem error_event_failing_input :
    (runEvents initialUIState errorThenCompleteStream).displayedPapers = [samplePaper] ∧
    (runEvents initialUIState errorThenCompleteStream).currentPaper = some samplePaper ∧
    (runEvents initialUIState errorThenCompleteStream).notifications =
      [("✅ Research paper generated successfully!", "success")] ∧
    (runEvents initialUIState errorThenCompleteStream).consoleErrors =
      ["Error parsing stream: Generation failed at methodology"] := by
  refine ⟨by decide, by decide, by decide, by decide⟩

/-- C8: over the canonical success stream (start, title, rag_start,
rag_complete, abstract, the six `section_start` events in fixed order,
references, complete) the progress-bar percentages, starting from the 5%
set before the stream, are exactly 5, 10, 20, 30, 40, 50, 55, 62, 69, 76,
83, 90, 95, 100 — a strictly increasing sequence. -/
theorem progress_width_strictly_increasing :
    widthTrace initialUIState canonicalSuccessEvents =
      [5, 10, 20, 30, 40, 50, 55, 62, 69, 76, 83, 90, 95, 100] ∧
    List.Chain' (· < ·) (widthTrace initialUIState canonicalSuccessEvents) := by
  have h : widthTrace initialUIState canonicalSuccessEvents =
      [5, 10, 20, 30, 40, 50, 55, 62, 69, 76, 83, 90, 95, 100] := by decide
  refine ⟨h, ?_⟩
  rw [h]
  simp [List.chain'_cons]

/-- C4: both pipeline entry points validate the trimmed topic synchronously.
A trimmed topic that is empty or shorter than 10 characters is rejected with
a notification and no network request; a trimmed topic of length at least 10
passes the topic check (in `generateSurvey` the request is then issued; in
`generatePaper` only the separate author check may still reject). -/
theorem topic_validation_precedes_phases (rawTitle : String)
    (authorEntries : List (String × String × String)) (useRag : Bool) :
    ((jsTrim rawTitle).length < 10 →
      (generatePaper_validate rawTitle authorEntries useRag).isTopicRejected = true ∧
      (generatePaper_validate rawTitle authorEntries useRag).issuesFetch = false) ∧
    (10 ≤ (jsTrim rawTitle).length →
      (generatePaper_validate rawTitle authorEntries useRag).isTopicRejected = false) ∧
    ((jsTrim rawTitle).length < 10 →
      (generateSurvey_validate rawTitle).isTopicRejected = true ∧
      (generateSurvey_validate rawTitle).issuesFetch = false) ∧
    (10 ≤ (jsTrim rawTitle).length →
      (generateSurvey_validate rawTitle).isTopicRejected = false ∧
      (generateSurvey_validate rawTitle).issuesFetch = true) := by
  refine ⟨fun h => ?_, fun h => ?_, fun h => ?_, fun h => ?_⟩ <;>
    simp only [generatePaper_validate, generateSurvey_validate] <;>
    split_ifs <;>
    simp_all [EntryOutcome.isTopicRejected, EntryOutcome.issuesFetch] <;>
    omega

/-- C4 (witness): concrete topics on both sides of the bound. -/
theorem topic_validation_witness :
    (generatePaper_validate "   short   " [] true).isTopicRejected = true ∧
    (generatePaper_validate "a sufficiently long topic" [] true).isTopicRejected = false ∧
    (generateSurvey_validate "   short   ").issuesFetch = false ∧
    (generateSurvey_validate "a sufficiently long topic").issuesFetch = true :=
  ⟨((topic_validation_precedes_phases "   short   " [] true).1 (by decide)).1,
   (topic_validation_precedes_phases "a sufficiently long topic" [] true).2.1 (by decide),
   ((topic_validation_precedes_phases "   short   " [] true).2.2.1 (by decide)).2,
   ((topic_validation_precedes_phases "a sufficiently long topic" [] true).2.2.2 (by decide)).2⟩

/-- C6: the read loop's dispatch takes a defined action exactly for the nine
statuses `start, title, rag_start, rag_complete, abstract, section_start,
references, complete, error` — an event with any other status leaves the
state untouched (so it is ignored, not fatal, and later events are processed
unchanged), while each known status does act on some state. -/
theorem status_handling_total (s : UIState) (e : SEvent) :
    (e.status ∉ knownStatuses → handleStreamEvent s e = s) ∧
    (∀ st ∈ knownStatuses, ∃ (s' : UIState) (e' : SEvent),
      e'.status = st ∧ handleStreamEvent s' e' ≠ s') := by
  constructor
  · intro h
    simp only [knownStatuses, List.mem_cons, List.not_mem_nil, or_false] at h
    push_neg at h
    obtain ⟨h1, h2, h3, h4, h5, h6, h7, h8, h9⟩ := h
    simp [handleStreamEvent, h1, h2, h3, h4, h5, h6, h7, h8, h9]
  · intro st hst
    simp only [knownStatuses, List.mem_cons, List.not_mem_nil, or_false] at hst
    rcases hst with rfl | rfl | rfl | rfl | rfl | rfl | rfl | rfl | rfl
    · exact ⟨initialUIState, statusEvent "start" "m", rfl, by decide⟩
    · exact ⟨initialUIState, statusEvent "title" "m", rfl, by decide⟩
    · exact ⟨initialUIState, statusEvent "rag_start" "m", rfl, by decide⟩
    · exact ⟨initialUIState, mkEvent "rag_complete" "" 9 "" none, rfl, by decide⟩
    · exact ⟨initialUIState, statusEvent "abstract" "m", rfl, by decide⟩
    · exact ⟨initialUIState, mkEvent "section_start" "m" 0 "introduction" none, rfl, by decide⟩
    · exact ⟨initialUIState, statusEvent "references" "m", rfl, by decide⟩
    · exact ⟨initialUIState, mkEvent "complete" "" 0 "" (some samplePaper), rfl, by decide⟩
    · exact ⟨initialUIState, statusEvent "error" "boom", rfl, by decide⟩

/-- C6 (witness): an unknown status is ignored at a concrete state. -/
theorem status_handling_witness :
    handleStreamEvent initialUIState (statusEvent "heartbeat" "m") = initialUIState :=
  (status_handling_total initialUIState (statusEvent "heartbeat" "m")).1 (by decide)

/-- C7 (counterexample): a section name can be present in `data.sections`
(here `"abstract"` mapped to the empty string) yet get no rendered block,
because the code tests JS truthiness, not presence. -/
theorem section_rendering_counterexample :
    renderedSections [("abstract", "")] = [] ∧
    alookup [("abstract", "")] "abstract" = some "" ∧
    "abstract" ∈ fixedSections := by
  refine ⟨by decide, by decide, by decide⟩

/-- C7 (amended): `displayGeneratedPaper` renders section blocks exactly for
the names of the fixed list `abstract, introduction, literature_review,
methodology, results, discussion, conclusion` whose value in `data.sections`
is present and non-empty, in the fixed order (the rendered list is a sublist
of the fixed list) and independent of the key order of `data.sections`;
no name outside the fixed list is ever rendered. -/
theorem section_rendering_amended (sections : List (String × String)) :
    List.Sublist (renderedSections sections) fixedSections ∧
    (∀ n, n ∈ renderedSections sections ↔
      n ∈ fixedSections ∧ ∃ v, alookup sections n = some v ∧ v ≠ "") ∧
    (∀ sections' : List (String × String), (sections.map Prod.fst).Nodup →
      sections.Perm sections' → renderedSections sections = renderedSections sections') := by
  refine ⟨List.filter_sublist _, fun n => ?_, fun sections' hn hp => ?_⟩
  · simp only [renderedSections, List.mem_filter, sectionTruthy]
    constructor
    · rintro ⟨hmem, htr⟩
      refine ⟨hmem, ?_⟩
      cases hl : alookup sections n with
      | none => rw [hl] at htr; simp at htr
      | some v =>
        rw [hl] at htr
        by_cases hv : v = ""
        · simp [hv] at htr
        · exact ⟨v, rfl, hv⟩
    · rintro ⟨hmem, v, hl, hv⟩
      refine ⟨hmem, ?_⟩
      rw [hl]
      simp [hv]
  · simp only [renderedSections]
    refine List.filter_congr (fun n _ => ?_)
    simp only [sectionTruthy, alookup_perm hp hn n]

/-- C7 (witness): the rendered list at a concrete `sections` mapping and at
a key-permutation of it. -/
theorem section_rendering_witness :
    renderedSections [("introduction", "i"), ("abstract", "a")] =
      renderedSections [("abstract", "a"), ("introduction", "i")] ∧
    renderedSections [("introduction", "i"), ("abstract", "a")] =
      ["abstract", "introduction"] :=
  ⟨(section_rendering_amended [("introduction", "i"), ("abstract", "a")]).2.2
      [("abstract", "a"), ("introduction", "i")] (by decide) (by decide),
   by decide⟩

/-- C5 (counterexample): the cache key keeps hyphens — the regex
`[^\w\s-]` removes only characters that are neither word characters,
whitespace nor hyphens — while the claim's "strip non-word characters"
drops them, so the two derivations disagree on any hyphenated query. -/
theorem cache_key_counterexample :
    get_cache_key stubHex "deep-learning models" ≠
      get_cache_key_claimed stubHex "deep-learning models" ∧
    get_cache_key stubHex "deep-learning models" = "deep-learning_models_01234567" ∧
    get_cache_key_claimed stubHex "deep-learning models" = "deeplearning_models_01234567" := by
  refine ⟨by decide, by decide, by decide⟩

/-- C5 (amended): for every query the derived cache key equals
`slug ++ "_" ++ first-8-hex-chars-of-hash(original query)`, where the slug
lowercases the query, strips characters that are neither word characters,
whitespace nor hyphens (hyphens are preserved), trims, collapses whitespace
runs to single underscores, and truncates to a 60-character prefix; the slug
is whitespace-free and at most 60 characters, and the derivation is
deterministic. -/
theorem cache_key_amended (md5hex : String → String) (q : String) :
    get_cache_key md5hex q = String.mk (cacheSlug q) ++ "_" ++ (md5hex q).take 8 ∧
    (cacheSlug q).length ≤ 60 ∧
    (∀ c ∈ cacheSlug q, c.isWhitespace = false) ∧
    (∀ q', q = q' → get_cache_key md5hex q = get_cache_key md5hex q') :=
  ⟨rfl, cacheSlug_length_le q, cacheSlug_no_whitespace q, fun _ h => by rw [h]⟩

/-- C5 (witness): the amended statement at a concrete query. -/
theorem cache_key_amended_witness :
    get_cache_key stubHex "federated learning" =
      get_cache_key stubHex "federated learning" ∧
    (cacheSlug "federated learning").length ≤ 60 :=
  ⟨(cache_key_amended stubHex "federated learning").2.2.2 "federated learning" rfl,
   (cache_key_amended stubHex "federated learning").2.1⟩

/-- C10: the read loop's framing is chunk-boundary independent — for any
chunking of the response stream, the handled frames are exactly the complete
`'\n\n'`-delimited frames of the whole stream that begin with `'data: '`,
each once and in stream order, while the trailing unterminated frame stays
in the buffer and is never handled; hence any two chunkings of the same
stream are handled identically. -/
theorem stream_framing_chunk_independent :
    (∀ chunks : List (List Char),
      readLoop [] chunks =
        (handledSpec (joinChunks chunks), restBuf (joinChunks chunks))) ∧
    (∀ chunks₁ chunks₂ : List (List Char),
      joinChunks chunks₁ = joinChunks chunks₂ →
      readLoop [] chunks₁ = readLoop [] chunks₂) := by
  have main : ∀ chunks : List (List Char),
      readLoop [] chunks =
        (handledSpec (joinChunks chunks), restBuf (joinChunks chunks)) := by
    intro chunks
    have h := readLoop_eq chunks [] rfl
    simpa [handledSpec] using h
  exact ⟨main, fun c1 c2 h => by rw [main c1, main c2, h]⟩

/-- C10 (witness): two different chunkings of one concrete stream — one
splitting the `'\n\n'` separator across a chunk boundary — are handled
identically, and the trailing incomplete frame is kept in the buffer. -/
theorem stream_framing_witness :
    readLoop [] ["data: 1\n".toList, "\ndata: 2".toList] =
      readLoop [] ["data: 1".toList, "\n\ndata: 2".toList] ∧
    readLoop [] ["data: 1".toList, "\n\ndata: 2".toList] =
      (["data: 1".toList], "data: 2".toList) :=
  ⟨stream_framing_chunk_independent.2 ["data: 1\n".toList, "\ndata: 2".toList]
      ["data: 1".toList, "\n\ndata: 2".toList] (by decide),
   by decide⟩

theorem alookup_append_of_none {α β : Type} [DecidableEq α]
    (l₁ l₂ : List (α × β)) (x : α) (h : alookup l₁ x = none) :
    alookup (l₁ ++ l₂) x = alookup l₂ x := by
  induction l₁ with
  | nil => rfl
  | cons p rest ih =>
    obtain ⟨a, b⟩ := p
    simp only [alookup] at h ⊢
    by_cases ha : a = x
    · rw [if_pos ha] at h; exact absurd h (by simp)
    · rw [if_neg ha] at h ⊢
      exact ih h

/-- C9 (spec-modelled): in any state where key `k` is neither cached nor
in flight, two calls that begin on `k` before the upstream request finishes
cause exactly one upstream request, and when it finishes both callers are
delivered the same result (or the same failure) `r`. -/
theorem single_flight_collapses (s₀ : SFState) (k : String) (r : SFRes)
    (c₁ c₂ : Nat)
    (hcache : alookup s₀.cache k = none)
    (hinflight : alookup s₀.inflight k = none)
    (hd₁ : alookup s₀.delivered c₁ = none)
    (hd₂ : alookup s₀.delivered c₂ = none)
    (hne : c₁ ≠ c₂) :
    (sfStep (sfStep (sfStep s₀ (.callBegin c₁ k)) (.callBegin c₂ k))
        (.callFinish k r)).upstream = s₀.upstream ++ [k] ∧
    alookup (sfStep (sfStep (sfStep s₀ (.callBegin c₁ k)) (.callBegin c₂ k))
        (.callFinish k r)).delivered c₁ = some r ∧
    alookup (sfStep (sfStep (sfStep s₀ (.callBegin c₁ k)) (.callBegin c₂ k))
        (.callFinish k r)).delivered c₂ = some r := by
  have s1eq : sfStep s₀ (.callBegin c₁ k) =
      { s₀ with inflight := (k, [c₁]) :: s₀.inflight,
                upstream := s₀.upstream ++ [k] } := by
    simp only [sfStep, hcache, hinflight]
  have s2eq : sfStep (sfStep s₀ (.callBegin c₁ k)) (.callBegin c₂ k) =
      { s₀ with inflight := (k, [c₁, c₂]) :: addWaiter s₀.inflight k c₂,
                upstream := s₀.upstream ++ [k] } := by
    rw [s1eq]
    simp only [sfStep, hcache]
    simp [alookup, addWaiter]
  rw [s2eq]
  simp only [sfStep, alookup, if_pos rfl, Option.getD_some]
  refine ⟨trivial, ?_, ?_⟩
  · rw [alookup_append_of_none _ _ _ hd₁]
    simp [alookup]
  · rw [alookup_append_of_none _ _ _ hd₂]
    simp only [List.map_cons, List.map_nil, alookup]
    rw [if_neg hne]
    simp [alookup]

/-- C9 (witness): two concrete concurrent calls on a cold cache. -/
theorem single_flight_witness :
    (sfStep (sfStep (sfStep emptySFState (.callBegin 0 "federated learning"))
        (.callBegin 1 "federated learning"))
        (.callFinish "federated learning" (.ok []))).upstream = ["federated learning"] ∧
    alookup (sfStep (sfStep (sfStep emptySFState (.callBegin 0 "federated learning"))
        (.callBegin 1 "federated learning"))
        (.callFinish "federated learning" (.ok []))).delivered 0 = some (.ok []) ∧
    alookup (sfStep (sfStep (sfStep emptySFState (.callBegin 0 "federated learning"))
        (.callBegin 1 "federated learning"))
        (.callFinish "federated learning" (.ok []))).delivered 1 = some (.ok []) :=
  single_flight_collapses emptySFState "federated learning" (.ok []) 0 1
    rfl rfl rfl rfl (by decide)

end Papergen
